import Mathlib

/-!
Verification development for the resume RAG backend.

The definitions below are a shallow embedding of the JavaScript core:
the RAGService class (collection store, indexing engine, query engine),
the GeminiEmbeddings client, and the upload-resume route handler.
JS numbers are modelled as rationals except where the code computes a
square root, where reals are used; JS division producing NaN or
Infinity (zero denominator) is modelled as Option.none.  Mutable state
(the in-memory collection Map, the vector_storage snapshot files, the
Mongo Resume and ChatHistory collections) is passed explicitly as a
RAGState value.
-/

/-- Per-chunk metadata pushed by processAndStoreResume:
source tag, chunk ordinal, chunk length. -/
structure ChunkMeta where
  source : String
  index : Nat
  chunkSize : Nat
deriving DecidableEq

/-- A vector collection: the four parallel sequences kept per
namespace, exactly as stored in memory and in the JSON snapshot. -/
structure Collection where
  name : String
  documents : List String
  embeddings : List (List ℚ)
  metadata : List ChunkMeta
  ids : List String
deriving DecidableEq

/-- A Mongo Resume document (metadata store record). -/
structure ResumeRecord where
  userId : String
  resumeId : String
  fileName : String
  resumeText : String
  chunksCount : Nat
  textLength : Nat
deriving DecidableEq

/-- A Mongo ChatHistory document (conversation record); messages are
(text, isBot) pairs. -/
structure ChatRecord where
  userId : String
  chatId : String
  resumeId : String
  chatName : String
  messages : List (String × Bool)
deriving DecidableEq

/-- The mutable state touched by RAGService: the in-memory collection
Map, the vector_storage snapshot files (keyed by collection name), and
the two Mongo collections. -/
structure RAGState where
  memory : String → Option Collection
  disk : String → Option Collection
  resumes : List ResumeRecord
  chats : List ChatRecord

/-- Point update of a string-keyed map. -/
def upd (m : String → Option Collection) (k : String) (v : Option Collection) :
    String → Option Collection :=
  fun q => if q = k then v else m q

/-- collectionName from RAGService: resume_userId_resumeId. -/
def collectionName (userId resumeId : String) : String :=
  "resume_" ++ userId ++ "_" ++ resumeId

/-- The storage directory used for snapshot files (process.cwd() joined
with vector_storage; the cwd prefix is constant and omitted). -/
def storageDirPath : String := "vector_storage"

/-- The snapshot file path for one namespace:
path.join(storageDir, collectionName + ".json"). -/
def snapshotPath (userId resumeId : String) : String :=
  storageDirPath ++ "/" ++ collectionName userId resumeId ++ ".json"

/-- The fresh empty collection object created by initializeCollection
when neither the memory Map nor the snapshot file has an entry. -/
def emptyCollection (name : String) : Collection :=
  ⟨name, [], [], [], []⟩

/-- initializeCollection: return the cached collection, else load the
snapshot into the cache, else create and cache an empty collection.
Returns the collection together with the updated state. -/
def initializeCollection (s : RAGState) (userId resumeId : String) :
    Collection × RAGState :=
  let name := collectionName userId resumeId
  match s.memory name with
  | some c => (c, s)
  | none =>
    match s.disk name with
    | some c => (c, { s with memory := upd s.memory name (some c) })
    | none =>
      let c := emptyCollection name
      (c, { s with memory := upd s.memory name (some c) })

/-- GeminiEmbeddings.embedDocuments retry loop for one text, modelling
the while loop: while attempts < 3 try the provider call, on failure
increment attempts and, when attempts < 3 still, sleep 300 * attempts
milliseconds; after the loop a surviving error is thrown.  The
parameter provider gives the outcome of the call numbered attempt
(0-based, the value of attempts at call time); fuel is the number of
further attempts the loop guard still allows (2 on entry, so 3 calls in
total).  Returns the final outcome, the number of provider calls made
and the list of sleep durations in milliseconds. -/
def retryEmbed (provider : Nat → Except String (List ℚ)) :
    Nat → Nat → Except String (List ℚ) × Nat × List Nat
  | attempt, fuel =>
    match provider attempt with
    | .ok v => (.ok v, 1, [])
    | .error e =>
      match fuel with
      | 0 => (.error e, 1, [])
      | n + 1 =>
        let rest := retryEmbed provider (attempt + 1) n
        (rest.1, rest.2.1 + 1, 300 * (attempt + 1) :: rest.2.2)

/-- GeminiEmbeddings.embedDocuments: one provider call (with retry) per
input text, accumulating one vector per text in input order; a text
that still fails after the retries makes the whole call throw, so the
locally accumulated vectors are discarded and no partial result is
returned.  Also returns the total number of provider calls and the
concatenated sleep durations. -/
def embedDocuments (provider : String → Nat → Except String (List ℚ)) :
    List String → Except String (List (List ℚ)) × Nat × List Nat
  | [] => (.ok [], 0, [])
  | t :: ts =>
    let one := retryEmbed (provider t) 0 2
    match one.1 with
    | .error e => (.error e, one.2.1, one.2.2)
    | .ok v =>
      let rest := embedDocuments provider ts
      match rest.1 with
      | .error e => (.error e, one.2.1 + rest.2.1, one.2.2 ++ rest.2.2)
      | .ok vs => (.ok (v :: vs), one.2.1 + rest.2.1, one.2.2 ++ rest.2.2)

/-- The embedding loop of processAndStoreResume.  For each chunk it
calls the embedding client (embedOne abstracts
(await embeddings.embedDocuments([chunk]))[0]) and pushes the id, the
chunk text, the vector and the metadata onto the four parallel arrays
of the collection object.  An embedding failure escapes the loop, so
the error carries the partially filled collection object (which, by
aliasing, is exactly what the in-memory Map then holds); idGen models
uuidv4, indexed by loop position. -/
def fillChunks (embedOne : String → Except String (List ℚ)) (idGen : Nat → String) :
    List String → Nat → Collection → Except (Collection × String) Collection
  | [], _, c => .ok c
  | chunk :: rest, i, c =>
    match embedOne chunk with
    | .error e => .error (c, e)
    | .ok vec =>
      let c' : Collection :=
        { c with
          ids := c.ids ++ [idGen i],
          documents := c.documents ++ [chunk],
          embeddings := c.embeddings ++ [vec],
          metadata := c.metadata ++ [⟨"resume", i, chunk.length⟩] }
      fillChunks embedOne idGen rest (i + 1) c'

/-- The Mongo upsert done by processAndStoreResume:
Resume.findOneAndUpdate({userId, resumeId}, record, {upsert: true}). -/
def upsertResume (rs : List ResumeRecord) (rec : ResumeRecord) : List ResumeRecord :=
  if rs.any (fun x => x.userId = rec.userId && x.resumeId = rec.resumeId) then
    rs.map (fun x =>
      if x.userId = rec.userId && x.resumeId = rec.resumeId then rec else x)
  else rs ++ [rec]

/-- RAGService.processAndStoreResume: load or create the collection,
split the text (splitter abstracts the RecursiveCharacterTextSplitter),
clear the four arrays of the collection object, embed the chunks one at
a time pushing onto the arrays, then write the snapshot file and upsert
the Resume record.  On an embedding failure the error propagates after
the shared collection object was already cleared and partially
refilled, so the error result carries the state whose memory Map holds
that partial collection while the snapshot and the Resume record keep
their previous contents. -/
def processAndStoreResume (embedOne : String → Except String (List ℚ))
    (idGen : Nat → String) (splitter : String → List String)
    (s : RAGState) (userId resumeId resumeText fileName : String) :
    Except (RAGState × String) (RAGState × Nat) :=
  let name := collectionName userId resumeId
  let init := initializeCollection s userId resumeId
  let s₁ := init.2
  let chunks := splitter resumeText
  let cleared : Collection :=
    { init.1 with documents := [], embeddings := [], metadata := [], ids := [] }
  match fillChunks embedOne idGen chunks 0 cleared with
  | .error (cPart, e) =>
    .error ({ s₁ with memory := upd s₁.memory name (some cPart) }, e)
  | .ok cFull =>
    let s₂ := { s₁ with memory := upd s₁.memory name (some cFull) }
    let s₃ := { s₂ with disk := upd s₂.disk name (some cFull) }
    let s₄ := { s₃ with resumes := (upsertResume s₃.resumes
      ⟨userId, resumeId, fileName, resumeText, chunks.length, resumeText.length⟩) }
    .ok (s₄, chunks.length)

/-- RAGService.deleteResume: remove the in-memory entry, unlink the
snapshot file, delete the Resume document (deleteOne removes the first
match). -/
def deleteResume (s : RAGState) (userId resumeId : String) : RAGState :=
  let name := collectionName userId resumeId
  { s with
    memory := upd s.memory name none,
    disk := upd s.disk name none,
    resumes := s.resumes.eraseP (fun x => x.userId = userId && x.resumeId = resumeId) }

/-- Mongo Resume.find({userId}) as used by getUserResumes and
deleteUserData (the createdAt sort only reorders, so it is omitted). -/
def getUserResumes (rs : List ResumeRecord) (userId : String) : List ResumeRecord :=
  rs.filter (fun x => x.userId = userId)

/-- One iteration of the deleteUserData loop: remove the in-memory
entry and unlink the snapshot file for one of the owner's resumes. -/
def clearEntry (userId : String) (st : RAGState) (r : ResumeRecord) : RAGState :=
  let name := collectionName userId r.resumeId
  { st with memory := upd st.memory name none, disk := upd st.disk name none }

/-- RAGService.deleteUserData: for each Resume document of the user,
remove the in-memory entry and unlink the snapshot file, then
Resume.deleteMany({userId}).  The ChatHistory collection is not
touched. -/
def deleteUserData (s : RAGState) (userId : String) : RAGState :=
  let s₁ := (getUserResumes s.resumes userId).foldl (clearEntry userId) s
  { s₁ with resumes := s₁.resumes.filter (fun x => ¬ x.userId = userId) }

/-- RAGService.deleteUserChatsByResume:
ChatHistory.deleteMany({userId, resumeId}). -/
def deleteUserChatsByResume (s : RAGState) (userId resumeId : String) : RAGState :=
  { s with chats := (s.chats.filter
      (fun c => ¬ (c.userId = userId ∧ c.resumeId = resumeId))) }

/-- RAGService.deleteChatHistory: ChatHistory.deleteOne({userId, chatId}). -/
def deleteChatHistory (s : RAGState) (userId chatId : String) : RAGState :=
  { s with chats := s.chats.eraseP (fun c => c.userId = userId && c.chatId = chatId) }

/-- The dot product computed by cosineSimilarity:
vecA.reduce((sum, a, i) => sum + a * vecB[i], 0).  The vectors in play
have equal length (one embedding model), which makes zipWith exact. -/
noncomputable def dotProduct (a b : List ℝ) : ℝ :=
  (List.zipWith (fun x y => x * y) a b).sum

/-- The sum of squares reduced by cosineSimilarity before taking the
square root. -/
noncomputable def sumSquares (a : List ℝ) : ℝ :=
  (a.map (fun x => x * x)).sum

/-- Math.sqrt of the sum of squares, as computed for each magnitude. -/
noncomputable def magnitude (a : List ℝ) : ℝ :=
  Real.sqrt (sumSquares a)

/-- JavaScript floating-point division.  A zero denominator yields NaN
or an infinity, none of which is a real number; both are modelled as
none.  Nonzero denominators divide as usual. -/
noncomputable def jsDiv (x y : ℝ) : Option ℝ :=
  if y = 0 then none else some (x / y)

/-- RAGService.cosineSimilarity: dotProduct / (magnitudeA * magnitudeB),
with no guard on the denominator. -/
noncomputable def cosineSimilarity (a b : List ℝ) : Option ℝ :=
  jsDiv (dotProduct a b) (magnitude a * magnitude b)

/-- One element of the similarities array built by queryResume:
{ index, similarity, document }.  The similarity values are kept
rational here; the scoring function is a parameter of the query model
(see mkSimilarities). -/
structure ScoredChunk where
  index : Nat
  similarity : ℚ
  document : String
deriving DecidableEq

/-- The ordering used by the stable sort
similarities.sort((a, b) => b.similarity - a.similarity): a sorts no
later than b exactly when b.similarity <= a.similarity. -/
def simOrder (a b : ScoredChunk) : Prop :=
  b.similarity ≤ a.similarity

instance : DecidableRel simOrder :=
  fun a b => (inferInstance : Decidable (b.similarity ≤ a.similarity))

instance : IsTotal ScoredChunk simOrder :=
  ⟨fun a b => le_total b.similarity a.similarity⟩

instance : IsTrans ScoredChunk simOrder :=
  ⟨fun _ _ _ h₁ h₂ => le_trans h₂ h₁⟩

/-- The similarities array of queryResume:
collection.embeddings.map((embedding, index) =>
  ({ index, similarity: cosineSimilarity(q, embedding), document:
     collection.documents[index] })).
The scoring function (cosine similarity against the fixed question
vector) is abstracted as score; an out-of-range document index (never
reached on aligned collections) defaults to the empty string. -/
def mkSimilarities (score : List ℚ → ℚ) (embeddings : List (List ℚ))
    (documents : List String) : List ScoredChunk :=
  embeddings.enum.map (fun p => ⟨p.1, score p.2, documents.getD p.1 ""⟩)

/-- The stable descending sort of queryResume.  JS Array#sort is
stable, and the comparator orders by descending similarity, so the
result is List.insertionSort with simOrder, which Mathlib shows stable. -/
def sortBySimilarity (sims : List ScoredChunk) : List ScoredChunk :=
  sims.insertionSort simOrder

/-- One entry of a conversationHistory array: (isUser, content). -/
structure ChatMessage where
  isUser : Bool
  content : String
deriving DecidableEq

/-- The prompt string composed by queryResume from the question, the
joined top-chunk context and the rendered conversation transcript. -/
def buildPrompt (question context conversationContext : String) : String :=
  "Based on the following resume information and conversation history, please answer the question: \"" ++
    question ++ "\"\n\nResume Information:\n" ++ context ++ conversationContext ++
    "\n\nPlease provide a helpful, accurate, and professional answer based on the resume information and conversation context."

/-- The rendered transcript: empty when the history is empty, else a
labelled line per message. -/
def conversationContextOf (history : List ChatMessage) : String :=
  if history.length = 0 then ""
  else
    "\n\nPrevious conversation:\n" ++
      String.intercalate "\n"
        (history.map (fun m =>
          (if m.isUser then "User: " else "Assistant: ") ++ m.content))

/-- The two shapes queryResume can return without throwing: the
not-indexed-yet result { success: false, message } and the success
result { success: true, answer, relevantChunks, confidence }. -/
inductive QueryResult where
  | notIndexed (message : String)
  | answered (answer : String) (relevantChunks : List (String × ℚ)) (confidence : ℚ)
deriving DecidableEq

/-- RAGService.queryResume: load the collection; with zero chunks
return the not-indexed result without calling any provider; otherwise
embed the question (a failure throws), score and stable-sort the
chunks, keep the top 3, call the generation provider on the composed
prompt (a failure throws) and return the answer (empty string when the
provider returns no content), the (text, similarity) pairs of the top
results and the similarity of the best one (0 when absent, as
topResults[0]?.similarity || 0). -/
def queryResume (embedQuestion : String → Except String (List ℚ))
    (score : List ℚ → List ℚ → ℚ)
    (generate : String → Except String (Option String))
    (s : RAGState) (userId resumeId question : String)
    (history : List ChatMessage) :
    RAGState × Except String QueryResult :=
  let init := initializeCollection s userId resumeId
  let col := init.1
  let s₁ := init.2
  if col.documents.length = 0 then
    (s₁, .ok (.notIndexed "Please upload that resume first"))
  else
    match embedQuestion question with
    | .error e => (s₁, .error e)
    | .ok qv =>
      let sims := mkSimilarities (score qv) col.embeddings col.documents
      let topResults := (sortBySimilarity sims).take 3
      let context := String.intercalate "\n\n" (topResults.map (fun r => r.document))
      match generate (buildPrompt question context (conversationContextOf history)) with
      | .error e => (s₁, .error e)
      | .ok content =>
        (s₁, .ok (.answered (content.getD "")
          (topResults.map (fun r => (r.document, r.similarity)))
          (((topResults.head?).map (fun r => r.similarity)).getD 0)))

/-- What the POST /upload-resume handler replies with. -/
inductive UploadOutcome where
  | noFile
  | limitExceeded (message : String)
  | noText (message : String)
  | stored (chunksStored : Nat)
  | serverError (e : String)
deriving DecidableEq

/-- JS String.prototype.trim: drop whitespace from both ends. -/
def jsTrim (s : String) : String :=
  ⟨(((s.data.dropWhile Char.isWhitespace).reverse.dropWhile Char.isWhitespace).reverse)⟩

/-- The POST /upload-resume handler: reject when no file was uploaded;
reject with the document-limit error when the user already has 3
resumes, before any text extraction, chunking, embedding or storage;
reject when no text could be extracted; otherwise generate a fresh
resumeId and run processAndStoreResume.  The uploaded file is
abstracted as its extracted text (pdfParse output). -/
def uploadResumeHandler (embedOne : String → Except String (List ℚ))
    (idGen : Nat → String) (splitter : String → List String)
    (s : RAGState) (userId : String) (file : Option String)
    (newResumeId fileName : String) : RAGState × UploadOutcome :=
  match file with
  | none => (s, .noFile)
  | some pdfText =>
    if 3 ≤ (getUserResumes s.resumes userId).length then
      (s, .limitExceeded "Maximum 3 resumes allowed. Please delete an existing resume first.")
    else if (jsTrim pdfText).length = 0 then
      (s, .noText "Could not extract text from PDF")
    else
      match processAndStoreResume embedOne idGen splitter s userId newResumeId pdfText fileName with
      | .error (s', e) => (s', .serverError e)
      | .ok (s', n) => (s', .stored n)

/-- The ids pushed by the embedding loop for chunks starting at loop
index i: one generated id per chunk. -/
def idsFrom (idGen : Nat → String) : Nat → List String → List String
  | _, [] => []
  | i, _ :: rest => idGen i :: idsFrom idGen (i + 1) rest

/-- The metadata entries pushed by the embedding loop for chunks
starting at loop index i. -/
def metaFrom : Nat → List String → List ChunkMeta
  | _, [] => []
  | i, chunk :: rest => ⟨"resume", i, chunk.length⟩ :: metaFrom (i + 1) rest

/-- The collection a successful processAndStoreResume run stores for
its key: built from the new chunks only. -/
def rebuiltCollection (nm : String) (chunks : List String)
    (f : String → List ℚ) (idGen : Nat → String) : Collection :=
  ⟨nm, chunks, chunks.map f, metaFrom 0 chunks, idsFrom idGen 0 chunks⟩

/-- The alignment invariant of a collection: the four parallel
sequences have equal length, and the metadata entry at position i
describes the chunk at position i (it records that ordinal and that
chunk's length). -/
def Collection.aligned (c : Collection) : Prop :=
  c.embeddings.length = c.documents.length ∧
  c.metadata.length = c.documents.length ∧
  c.ids.length = c.documents.length ∧
  ∀ i, i < c.documents.length →
    (c.metadata.getD i ⟨"", 0, 0⟩).index = i ∧
    (c.metadata.getD i ⟨"", 0, 0⟩).chunkSize = (c.documents.getD i "").length

/-- The state of a fresh process over an empty storage directory and
empty Mongo collections. -/
def initialState : RAGState :=
  { memory := fun _ => none, disk := fun _ => none, resumes := [], chats := [] }

/-- The states reachable through the store operations: the initial
state, loading or creating a collection, a completed or failed
processAndStoreResume, and the delete operations. -/
inductive Reachable : RAGState → Prop
  | init : Reachable initialState
  | initColl {s : RAGState} (u r : String) :
      Reachable s → Reachable (initializeCollection s u r).2
  | processOk {s s' : RAGState} {n : Nat}
      (em : String → Except String (List ℚ)) (idGen : Nat → String)
      (splitter : String → List String) (u r text fn : String) :
      Reachable s →
      processAndStoreResume em idGen splitter s u r text fn = .ok (s', n) →
      Reachable s'
  | processErr {s s' : RAGState} {e : String}
      (em : String → Except String (List ℚ)) (idGen : Nat → String)
      (splitter : String → List String) (u r text fn : String) :
      Reachable s →
      processAndStoreResume em idGen splitter s u r text fn = .error (s', e) →
      Reachable s'
  | delResume {s : RAGState} (u r : String) :
      Reachable s → Reachable (deleteResume s u r)
  | delUser {s : RAGState} (u : String) :
      Reachable s → Reachable (deleteUserData s u)
  | delChats {s : RAGState} (u r : String) :
      Reachable s → Reachable (deleteUserChatsByResume s u r)

/-- The state carried by a failed processAndStoreResume call, when it
failed. -/
def errSt : Except (RAGState × String) (RAGState × Nat) → Option RAGState
  | .error (st, _) => some st
  | .ok _ => none

/-- The state carried by a successful processAndStoreResume call, when
it succeeded. -/
def okSt : Except (RAGState × String) (RAGState × Nat) → Option RAGState
  | .ok (st, _) => some st
  | .error _ => none

/-- A previously indexed one-chunk collection, used as concrete prior
state. -/
def oldCol : Collection :=
  ⟨"resume_u_r", ["old chunk"], [[1]], [⟨"resume", 0, 9⟩], ["id0"]⟩

/-- A concrete state holding oldCol in memory and on disk plus its
Resume record. -/
def s0 : RAGState :=
  { memory := upd (fun _ => none) "resume_u_r" (some oldCol),
    disk := upd (fun _ => none) "resume_u_r" (some oldCol),
    resumes := [⟨"u", "r", "old.pdf", "old text", 1, 8⟩],
    chats := [] }

/-- An embedding client whose provider call always fails. -/
def embedFail : String → Except String (List ℚ) := fun _ => .error "rate limit"

/-- An embedding client that always succeeds with the vector [2]. -/
def emOk2 : String → Except String (List ℚ) := fun _ => .ok [2]

/-- A splitter producing a single chunk, the degenerate short-text
case of the chunker. -/
def splitOne : String → List String := fun t => [t]

/-- A deterministic stand-in for uuidv4, indexed by loop position. -/
def idGen0 : Nat → String := fun i => "id" ++ toString i

/-- A provider for the embedDocuments witness: the text boom fails on
every attempt, every other text succeeds immediately with [1]. -/
def provW : String → Nat → Except String (List ℚ) :=
  fun t a =>
    if t = "boom" then .error "fail"
    else if a = 0 then .ok [1] else .error "late"

/-- A conversation record owned by user u, used for the delete-all
counterexample. -/
def chat0 : ChatRecord := ⟨"u", "chat1", "r", "my chat", []⟩

/-- A state with one resume and one conversation for user u. -/
def s4 : RAGState :=
  { memory := fun _ => none, disk := fun _ => none,
    resumes := [⟨"u", "r", "f.pdf", "text", 1, 4⟩],
    chats := [chat0] }

/-- A two-chunk collection with distinct embeddings for the query
witness. -/
def colQ : Collection :=
  ⟨"resume_u_r", ["A", "B"], [[1], [2]],
    [⟨"resume", 0, 1⟩, ⟨"resume", 1, 1⟩], ["i0", "i1"]⟩

/-- A state holding colQ in memory. -/
def sQ : RAGState :=
  { memory := upd (fun _ => none) "resume_u_r" (some colQ),
    disk := upd (fun _ => none) "resume_u_r" (some colQ),
    resumes := [], chats := [] }

/-- A question embedder that succeeds with the vector [1]. -/
def embedOkQ : String → Except String (List ℚ) := fun _ => .ok [1]

/-- A scoring function for the query witness: the score of a chunk
vector is its first coordinate. -/
def scoreHead : List ℚ → List ℚ → ℚ := fun _ v => v.headD 0

/-- A generation client that always answers ans. -/
def genAns : String → Except String (Option String) := fun _ => .ok (some "ans")

/-- A generation client that always fails. -/
def genFail : String → Except String (Option String) := fun _ => .error "gen down"

/-- A state whose user u already owns three resumes. -/
def sCap : RAGState :=
  { memory := fun _ => none, disk := fun _ => none,
    resumes := [⟨"u", "r1", "a.pdf", "ta", 1, 2⟩, ⟨"u", "r2", "b.pdf", "tb", 1, 2⟩,
      ⟨"u", "r3", "c.pdf", "tc", 1, 2⟩],
    chats := [] }

/-- Well-formedness of the whole store: every collection held in the
in-memory Map or in a snapshot file is aligned. -/
def RAGState.wf (s : RAGState) : Prop :=
  (∀ k c, s.memory k = some c → c.aligned) ∧
  (∀ k c, s.disk k = some c → c.aligned)

/-- C10: the mapping (ownerId, documentId) to collection name is not
injective: ownerId "a" with documentId "b_c" and ownerId "a_b" with
documentId "c" yield the same name, hence the same snapshot path and
the same in-memory Map entry. -/
theorem collectionName_not_injective :
    collectionName "a" "b_c" = collectionName "a_b" "c" ∧
    ("a", "b_c") ≠ (("a_b", "c") : String × String) ∧
    snapshotPath "a" "b_c" = snapshotPath "a_b" "c" ∧
    ∀ s : RAGState,
      (initializeCollection s "a" "b_c").1 = (initializeCollection s "a_b" "c").1 := by
  refine ⟨rfl, by decide, rfl, fun s => rfl⟩

/-- When every text succeeds on its first provider attempt,
embedDocuments returns one vector per text in input order, makes one
provider call per text, and never sleeps. -/
lemma embedDocuments_all_ok (provider : String → Nat → Except String (List ℚ))
    (f : String → List ℚ) :
    ∀ texts : List String, (∀ t ∈ texts, provider t 0 = .ok (f t)) →
      embedDocuments provider texts = (.ok (texts.map f), texts.length, [])
  | [], _ => rfl
  | t :: ts, h => by
    have ht : provider t 0 = .ok (f t) := h t (List.mem_cons_self _ _)
    have ih := embedDocuments_all_ok provider f ts
      (fun x hx => h x (List.mem_cons_of_mem _ hx))
    simp [embedDocuments, retryEmbed, ht, ih, Nat.add_comm]

/-- A successful embedDocuments call returns exactly one vector per
input text. -/
lemma embedDocuments_ok_length (provider : String → Nat → Except String (List ℚ)) :
    ∀ (texts : List String) (vs : List (List ℚ)) (c : Nat) (ds : List Nat),
      embedDocuments provider texts = (.ok vs, c, ds) → vs.length = texts.length
  | [], vs, c, ds, h => by
    simp [embedDocuments] at h
    simp [← h.1]
  | t :: ts, vs, c, ds, h => by
    simp only [embedDocuments] at h
    rcases h1 : (retryEmbed (provider t) 0 2).1 with e | v
    · rw [h1] at h
      simp at h
    · rw [h1] at h
      rcases h2 : (embedDocuments provider ts).1 with e | vs'
      · rw [h2] at h
        simp at h
      · rw [h2] at h
        simp at h
        have := embedDocuments_ok_length provider ts vs'
          (embedDocuments provider ts).2.1 (embedDocuments provider ts).2.2
          (by rcases hE : embedDocuments provider ts with ⟨r, p⟩; simp [hE] at h2 ⊢; simp [h2])
        simp [← h.1, this]

/-- A text whose three attempts all fail yields an error from
retryEmbed. -/
lemma retryEmbed_all_fail (provider : Nat → Except String (List ℚ))
    (h : ∀ a, a < 3 → ∃ e, provider a = .error e) :
    ∃ e, (retryEmbed provider 0 2).1 = .error e := by
  obtain ⟨e0, h0⟩ := h 0 (by omega)
  obtain ⟨e1, h1⟩ := h 1 (by omega)
  obtain ⟨e2, h2⟩ := h 2 (by omega)
  exact ⟨e2, by simp [retryEmbed, h0, h1, h2]⟩

/-- If some text fails all three attempts, the whole embedDocuments
call fails: no partial batch is returned. -/
lemma embedDocuments_err_of_exhausted (provider : String → Nat → Except String (List ℚ)) :
    ∀ texts : List String,
      (∃ t ∈ texts, ∀ a, a < 3 → ∃ e, provider t a = .error e) →
      ∃ e c ds, embedDocuments provider texts = (.error e, c, ds)
  | [], h => by simp at h
  | t :: ts, h => by
    rcases h with ⟨x, hx, hfail⟩
    rcases List.mem_cons.mp hx with rfl | hx'
    · obtain ⟨e, he⟩ := retryEmbed_all_fail (provider x) hfail
      refine ⟨e, (retryEmbed (provider x) 0 2).2.1, (retryEmbed (provider x) 0 2).2.2, ?_⟩
      simp only [embedDocuments]
      rw [he]
    · rcases h1 : (retryEmbed (provider t) 0 2).1 with e | v
      · exact ⟨e, (retryEmbed (provider t) 0 2).2.1, (retryEmbed (provider t) 0 2).2.2,
          by simp only [embedDocuments]; rw [h1]⟩
      · obtain ⟨e, c, ds, hrec⟩ := embedDocuments_err_of_exhausted provider ts ⟨x, hx', hfail⟩
        refine ⟨e, (retryEmbed (provider t) 0 2).2.1 + c,
          (retryEmbed (provider t) 0 2).2.2 ++ ds, ?_⟩
        simp only [embedDocuments]
        rw [h1, hrec]

/-- C8: the embedding client issues one provider call per text and, on
all-first-attempt success, returns exactly one vector per text in input
order with no sleeps; any successful call returns one vector per text;
a text that fails all 3 attempts makes the whole call fail with no
partial result; a failed attempt is retried after a backoff of 300 ms
times the attempt number (300 after the first failure, 600 after the
second), with at most 3 attempts per text. -/
theorem embedDocuments_retry_contract
    (provider : String → Nat → Except String (List ℚ)) (texts : List String)
    (f : String → List ℚ) (t : String) (v1 : List ℚ) (e0 e1 : String)
    (r2 : Except String (List ℚ)) :
    ((∀ x ∈ texts, provider x 0 = .ok (f x)) →
      embedDocuments provider texts = (.ok (texts.map f), texts.length, [])) ∧
    (∀ vs c ds, embedDocuments provider texts = (.ok vs, c, ds) →
      vs.length = texts.length) ∧
    ((∃ x ∈ texts, ∀ a, a < 3 → ∃ e, provider x a = .error e) →
      ∃ e c ds, embedDocuments provider texts = (.error e, c, ds)) ∧
    (provider t 0 = .error e0 → provider t 1 = .ok v1 →
      retryEmbed (provider t) 0 2 = (.ok v1, 2, [300 * 1])) ∧
    (provider t 0 = .error e0 → provider t 1 = .error e1 → provider t 2 = r2 →
      retryEmbed (provider t) 0 2 = (r2, 3, [300 * 1, 300 * 2])) := by
  refine ⟨embedDocuments_all_ok provider f texts,
    fun vs c ds h => embedDocuments_ok_length provider texts vs c ds h,
    embedDocuments_err_of_exhausted provider texts, ?_, ?_⟩
  · intro h0 h1
    simp [retryEmbed, h0, h1]
  · intro h0 h1 h2
    rcases r2 with e | v <;> simp [retryEmbed, h0, h1, h2]

/-- Witness for the embedding-client contract at concrete inputs: two
good texts embed to one vector each with no retries, and a batch whose
second text always fails produces an overall failure. -/
theorem embedDocuments_retry_contract_witness :
    embedDocuments provW ["alpha", "beta"] = (.ok [[1], [1]], 2, []) ∧
    ∃ e c ds, embedDocuments provW ["alpha", "boom"] = (.error e, c, ds) := by
  constructor
  · have h := (embedDocuments_retry_contract provW ["alpha", "beta"] (fun _ => [1])
      "boom" [0] "fail" "fail" (.error "fail")).1
    simpa using h (by intro x hx; fin_cases hx <;> rfl)
  · exact (embedDocuments_retry_contract provW ["alpha", "boom"] (fun _ => [1])
      "boom" [0] "fail" "fail" (.error "fail")).2.2.1
      ⟨"boom", by simp, fun a ha => ⟨"fail", by simp [provW]⟩⟩

/-- Applying a point update at its own key. -/
lemma upd_apply_self (m : String → Option Collection) (k : String) (v : Option Collection) :
    upd m k v k = v := by
  simp [upd]

/-- initializeCollection never changes the snapshot files, the Resume
records or the ChatHistory records. -/
lemma initializeCollection_state (s : RAGState) (u r : String) :
    (initializeCollection s u r).2.disk = s.disk ∧
    (initializeCollection s u r).2.resumes = s.resumes ∧
    (initializeCollection s u r).2.chats = s.chats := by
  rcases hm : s.memory (collectionName u r) with _ | c
  · rcases hd : s.disk (collectionName u r) with _ | c
    · simp [initializeCollection, hm, hd]
    · simp [initializeCollection, hm, hd]
  · simp [initializeCollection, hm]

/-- When every chunk embeds successfully, the embedding loop appends
exactly one id, text, vector and metadata entry per chunk to the
accumulated collection. -/
lemma fillChunks_ok (em : String → Except String (List ℚ)) (idGen : Nat → String)
    (f : String → List ℚ) :
    ∀ (chunks : List String) (i : Nat) (c : Collection),
      (∀ x ∈ chunks, em x = .ok (f x)) →
      fillChunks em idGen chunks i c = .ok
        { c with
          ids := c.ids ++ idsFrom idGen i chunks,
          documents := c.documents ++ chunks,
          embeddings := c.embeddings ++ chunks.map f,
          metadata := c.metadata ++ metaFrom i chunks }
  | [], i, c, _ => by simp [fillChunks, idsFrom, metaFrom]
  | chunk :: rest, i, c, h => by
    have hc : em chunk = .ok (f chunk) := h chunk (List.mem_cons_self _ _)
    have ih := fillChunks_ok em idGen f rest (i + 1)
      { c with
        ids := c.ids ++ [idGen i],
        documents := c.documents ++ [chunk],
        embeddings := c.embeddings ++ [f chunk],
        metadata := c.metadata ++ [⟨"resume", i, chunk.length⟩] }
      (fun x hx => h x (List.mem_cons_of_mem _ hx))
    simp only [fillChunks, hc, ih, idsFrom, metaFrom, List.map_cons]
    simp [List.append_assoc]

/-- Full characterization of a successful processAndStoreResume run:
the collection for the key is wholly rebuilt from the new chunks, the
snapshot matches it, the Resume record is upserted with the new chunk
count, and conversations are untouched. -/
lemma processAndStoreResume_ok_spec (em : String → Except String (List ℚ))
    (idGen : Nat → String) (splitter : String → List String)
    (s : RAGState) (u r text fn : String) (f : String → List ℚ)
    (hf : ∀ x ∈ splitter text, em x = .ok (f x)) :
    ∃ s', processAndStoreResume em idGen splitter s u r text fn =
        .ok (s', (splitter text).length) ∧
      s'.memory (collectionName u r) = some
        (rebuiltCollection (initializeCollection s u r).1.name (splitter text) f idGen) ∧
      s'.disk (collectionName u r) = some
        (rebuiltCollection (initializeCollection s u r).1.name (splitter text) f idGen) ∧
      s'.resumes = upsertResume s.resumes
        ⟨u, r, fn, text, (splitter text).length, text.length⟩ ∧
      s'.chats = s.chats := by
  have hfill₀ := fillChunks_ok em idGen f (splitter text) 0
    { (initializeCollection s u r).1 with
      documents := [], embeddings := [], metadata := [], ids := [] } hf
  have hfill : fillChunks em idGen (splitter text) 0
      { (initializeCollection s u r).1 with
        documents := [], embeddings := [], metadata := [], ids := [] } =
      .ok (rebuiltCollection (initializeCollection s u r).1.name (splitter text) f idGen) := by
    simpa [rebuiltCollection] using hfill₀
  have hst := initializeCollection_state s u r
  refine Exists.intro (RAGState.mk
    (upd (initializeCollection s u r).2.memory (collectionName u r)
      (some (rebuiltCollection (initializeCollection s u r).1.name (splitter text) f idGen)))
    (upd (initializeCollection s u r).2.disk (collectionName u r)
      (some (rebuiltCollection (initializeCollection s u r).1.name (splitter text) f idGen)))
    (upsertResume (initializeCollection s u r).2.resumes
      ⟨u, r, fn, text, (splitter text).length, text.length⟩)
    (initializeCollection s u r).2.chats) ⟨?_, ?_, ?_, ?_, ?_⟩
  · simp only [processAndStoreResume]
    rw [hfill]
  · exact upd_apply_self _ _ _
  · exact upd_apply_self _ _ _
  · simp [hst.2.1]
  · simp [hst.2.2]

/-- C2: a successful re-run of indexing fully replaces the collection
for the key: the stored collection holds exactly one id, text,
embedding and metadata entry per chunk of the new splitter output
(so the stored chunk count equals the new chunk count), nothing from
the previous contents remains in memory or in the snapshot, and the
Resume record is upserted with the new chunk count. -/
theorem processAndStoreResume_replaces_collection
    (em : String → Except String (List ℚ)) (idGen : Nat → String)
    (splitter : String → List String) (s : RAGState) (u r text fn : String)
    (f : String → List ℚ) (hf : ∀ x ∈ splitter text, em x = .ok (f x)) :
    ∃ s', processAndStoreResume em idGen splitter s u r text fn =
        .ok (s', (splitter text).length) ∧
      s'.memory (collectionName u r) = some
        (rebuiltCollection (initializeCollection s u r).1.name (splitter text) f idGen) ∧
      s'.disk (collectionName u r) = some
        (rebuiltCollection (initializeCollection s u r).1.name (splitter text) f idGen) ∧
      s'.resumes = upsertResume s.resumes
        ⟨u, r, fn, text, (splitter text).length, text.length⟩ ∧
      s'.chats = s.chats :=
  processAndStoreResume_ok_spec em idGen splitter s u r text fn f hf

/-- Witness for the full-replace property: re-indexing the key (u, r)
of s0 (which holds a one-chunk collection for old text) with the new
text leaves exactly the rebuilt one-chunk collection and the updated
Resume record, with nothing from oldCol surviving. -/
theorem processAndStoreResume_replaces_collection_witness :
    (okSt (processAndStoreResume emOk2 idGen0 splitOne s0 "u" "r" "new" "new.pdf")).map
        (fun st => st.memory (collectionName "u" "r")) =
      some (some (rebuiltCollection "resume_u_r" ["new"] (fun _ => [2]) idGen0)) ∧
    (okSt (processAndStoreResume emOk2 idGen0 splitOne s0 "u" "r" "new" "new.pdf")).map
        (fun st => st.resumes) =
      some [⟨"u", "r", "new.pdf", "new", 1, 3⟩] := by
  obtain ⟨s', h1, h2, h3, h4, h5⟩ := processAndStoreResume_replaces_collection
    emOk2 idGen0 splitOne s0 "u" "r" "new" "new.pdf" (fun _ => [2]) (fun x hx => rfl)
  rw [h1]
  constructor
  · simpa [okSt] using h2
  · rw [show (okSt (Except.ok (s', (splitOne "new").length))).map (fun st => st.resumes) =
        some s'.resumes from rfl, h4]
    decide

/-- C1 is violated by the code: processAndStoreResume clears the shared
in-memory collection object before embedding, so when embedding fails
the operation does fail and the snapshot and the Resume record keep
their previous contents, but the in-memory collection for the key has
been replaced by the cleared partial object and the previous contents
are lost.  Evaluated at a concrete prior state with a failing
embedding client. -/
theorem processAndStoreResume_failure_clobbers_memory :
    (errSt (processAndStoreResume embedFail idGen0 splitOne s0 "u" "r" "new text" "f.pdf")).map
        (fun st => st.memory (collectionName "u" "r")) =
      some (some ⟨"resume_u_r", [], [], [], []⟩) ∧
    (⟨"resume_u_r", [], [], [], []⟩ : Collection) ≠ oldCol ∧
    (errSt (processAndStoreResume embedFail idGen0 splitOne s0 "u" "r" "new text" "f.pdf")).map
        (fun st => st.disk (collectionName "u" "r")) = some (some oldCol) ∧
    (errSt (processAndStoreResume embedFail idGen0 splitOne s0 "u" "r" "new text" "f.pdf")).map
        (fun st => st.resumes) = some s0.resumes ∧
    (errSt (processAndStoreResume embedFail idGen0 splitOne s0 "u" "r" "new text" "f.pdf")).map
        (fun st => st.chats) = some s0.chats := by
  refine ⟨rfl, by decide, rfl, rfl, rfl⟩

/-- The deleteUserData loop over the owned resumes only clears memory
and snapshot entries whose key is one of the owned collection names;
it never touches the Resume or ChatHistory records. -/
lemma clearFold_spec (u : String) :
    ∀ (l : List ResumeRecord) (st : RAGState),
      (l.foldl (clearEntry u) st).resumes = st.resumes ∧
      (l.foldl (clearEntry u) st).chats = st.chats ∧
      ∀ k, ((l.foldl (clearEntry u) st).memory k =
              if k ∈ l.map (fun r => collectionName u r.resumeId) then none
              else st.memory k) ∧
           ((l.foldl (clearEntry u) st).disk k =
              if k ∈ l.map (fun r => collectionName u r.resumeId) then none
              else st.disk k)
  | [], st => by simp
  | r :: rest, st => by
    have ih := clearFold_spec u rest (clearEntry u st r)
    refine ⟨ih.1, ih.2.1, fun k => ?_⟩
    have hm := (ih.2.2 k).1
    have hd := (ih.2.2 k).2
    constructor
    · rw [List.foldl_cons, hm]
      by_cases h1 : k ∈ rest.map (fun r => collectionName u r.resumeId) <;>
        by_cases h2 : k = collectionName u r.resumeId <;>
          simp [h1, h2, clearEntry, upd]
    · rw [List.foldl_cons, hd]
      by_cases h1 : k ∈ rest.map (fun r => collectionName u r.resumeId) <;>
        by_cases h2 : k = collectionName u r.resumeId <;>
          simp [h1, h2, clearEntry, upd]

/-- C4 as stated is violated: deleteUserData leaves the ChatHistory
records of the owner untouched.  Concretely, deleting all data of user
u in a state with one resume and one conversation for u keeps the
conversation. -/
theorem deleteUserData_leaves_chats :
    (deleteUserData s4 "u").chats = [chat0] ∧
    chat0.userId = "u" ∧
    [chat0] ≠ ([] : List ChatRecord) := by
  refine ⟨rfl, rfl, by decide⟩

/-- C4 amended: deleteUserData removes the in-memory collection and
the snapshot of each of the owner's documents and deletes every Resume
record of that owner, but it does not remove the owner's Conversation
records; those are only removed by the separate
deleteUserChatsByResume operation (per document), which deleteUserData
never invokes. -/
theorem deleteUserData_amended (s : RAGState) (u : String) :
    (∀ rec ∈ getUserResumes s.resumes u,
      (deleteUserData s u).memory (collectionName u rec.resumeId) = none ∧
      (deleteUserData s u).disk (collectionName u rec.resumeId) = none) ∧
    (deleteUserData s u).resumes = s.resumes.filter (fun x => ¬ x.userId = u) ∧
    (deleteUserData s u).chats = s.chats ∧
    ∀ r : String, (deleteUserChatsByResume s u r).chats =
      s.chats.filter (fun c => ¬ (c.userId = u ∧ c.resumeId = r)) := by
  have hfold := clearFold_spec u (getUserResumes s.resumes u) s
  refine ⟨fun rec hrec => ?_, ?_, ?_, fun r => rfl⟩
  · have hmem : collectionName u rec.resumeId ∈
        (getUserResumes s.resumes u).map (fun r => collectionName u r.resumeId) :=
      List.mem_map_of_mem _ hrec
    have hm := (hfold.2.2 (collectionName u rec.resumeId)).1
    have hd := (hfold.2.2 (collectionName u rec.resumeId)).2
    rw [if_pos hmem] at hm hd
    exact ⟨hm, hd⟩
  · show ((getUserResumes s.resumes u).foldl (clearEntry u) s).resumes.filter _ = _
    rw [hfold.1]
  · exact hfold.2.1

/-- Witness for the amended delete-all behaviour at the concrete state
s4: the collection and snapshot of the single owned resume are gone,
the Resume record is gone, and the conversation remains. -/
theorem deleteUserData_amended_witness :
    (deleteUserData s4 "u").memory (collectionName "u" "r") = none ∧
    (deleteUserData s4 "u").disk (collectionName "u" "r") = none ∧
    (deleteUserData s4 "u").resumes = [] ∧
    (deleteUserData s4 "u").chats = [chat0] := by
  have h := deleteUserData_amended s4 "u"
  have h1 := h.1 ⟨"u", "r", "f.pdf", "text", 1, 4⟩ (by decide)
  refine ⟨h1.1, h1.2, ?_, h.2.2.1⟩
  rw [h.2.1]
  decide

/-- C6: querying a namespace whose collection has zero chunks returns
the distinguished not-indexed result (success flag false with the
please-upload message) without calling any provider, while a provider
failure on a nonempty collection is thrown as an error value; the two
outcomes are distinct constructors. -/
theorem queryResume_not_indexed
    (embedQ : String → Except String (List ℚ)) (score : List ℚ → List ℚ → ℚ)
    (generate : String → Except String (Option String))
    (s : RAGState) (u r question : String) (history : List ChatMessage)
    (e : String) :
    ((initializeCollection s u r).1.documents.length = 0 →
      queryResume embedQ score generate s u r question history =
        ((initializeCollection s u r).2,
          .ok (.notIndexed "Please upload that resume first"))) ∧
    ((initializeCollection s u r).1.documents.length ≠ 0 →
      embedQ question = .error e →
      queryResume embedQ score generate s u r question history =
        ((initializeCollection s u r).2, .error e)) ∧
    (∀ msg ans chunks conf,
      QueryResult.notIndexed msg ≠ QueryResult.answered ans chunks conf) := by
  refine ⟨fun h => ?_, fun h he => ?_, fun msg ans chunks conf => by simp⟩
  · simp [queryResume, h]
  · simp [queryResume, h, he]

/-- Witness for the not-indexed contract: a fresh state returns the
please-upload result even under an always-failing embedder, and the
same failing embedder on a nonempty collection yields a thrown error. -/
theorem queryResume_not_indexed_witness :
    (queryResume embedFail scoreHead genFail initialState "u" "r" "q" []).2 =
      .ok (.notIndexed "Please upload that resume first") ∧
    (queryResume embedFail scoreHead genFail s0 "u" "r" "q" []).2 =
      .error "rate limit" := by
  constructor
  · have h := (queryResume_not_indexed embedFail scoreHead genFail initialState
      "u" "r" "q" [] "rate limit").1 (by decide)
    exact congrArg Prod.snd h
  · have h := (queryResume_not_indexed embedFail scoreHead genFail s0
      "u" "r" "q" [] "rate limit").2.1 (by decide) rfl
    exact congrArg Prod.snd h

/-- Upserting a record whose key already exists replaces it in place
and keeps the number of Resume records unchanged. -/
lemma upsertResume_length_of_mem (rs : List ResumeRecord) (rec : ResumeRecord)
    (h : rs.any (fun x => x.userId = rec.userId && x.resumeId = rec.resumeId) = true) :
    (upsertResume rs rec).length = rs.length := by
  simp [upsertResume, h]

/-- C7: an owner already holding 3 documents has a new upload rejected
with the document-limit error before any chunking, embedding or
storage happens (the state is returned unchanged); an owner with fewer
than 3 documents gets the upload processed; and the indexing engine
itself never enforces the cap, so reprocessing an existing documentId
succeeds in any state and leaves the number of Resume records
unchanged. -/
theorem uploadResume_document_cap
    (em : String → Except String (List ℚ)) (idGen : Nat → String)
    (splitter : String → List String) (s : RAGState)
    (u pdfText newId fn : String) (f : String → List ℚ) :
    (3 ≤ (getUserResumes s.resumes u).length →
      uploadResumeHandler em idGen splitter s u (some pdfText) newId fn =
        (s, .limitExceeded
          "Maximum 3 resumes allowed. Please delete an existing resume first.")) ∧
    ((getUserResumes s.resumes u).length < 3 →
      (jsTrim pdfText).length ≠ 0 →
      (∀ x ∈ splitter pdfText, em x = .ok (f x)) →
      ∃ s', uploadResumeHandler em idGen splitter s u (some pdfText) newId fn =
        (s', .stored (splitter pdfText).length)) ∧
    (∀ r text fn' : String,
      (∀ x ∈ splitter text, em x = .ok (f x)) →
      (∃ s', processAndStoreResume em idGen splitter s u r text fn' =
        .ok (s', (splitter text).length)) ∧
      ∀ s' n, processAndStoreResume em idGen splitter s u r text fn' = .ok (s', n) →
        s.resumes.any (fun x => x.userId = u && x.resumeId = r) = true →
        s'.resumes.length = s.resumes.length) := by
  refine ⟨fun hcap => ?_, fun hlt htrim hok => ?_, fun r text fn' hok => ?_⟩
  · simp [uploadResumeHandler, hcap]
  · obtain ⟨s', h1, -, -, -, -⟩ :=
      processAndStoreResume_ok_spec em idGen splitter s u newId pdfText fn f hok
    refine ⟨s', ?_⟩
    simp [uploadResumeHandler, Nat.not_le.mpr hlt, htrim, h1]
  · obtain ⟨s', h1, -, -, h4, -⟩ :=
      processAndStoreResume_ok_spec em idGen splitter s u r text fn' f hok
    refine ⟨⟨s', h1⟩, fun s'' n h hmem => ?_⟩
    have : s'' = s' := by
      rw [h1] at h
      exact ((Prod.mk.injEq _ _ _ _ ▸ Except.ok.inj h).1).symm
    subst this
    rw [h4]
    exact upsertResume_length_of_mem s.resumes _ hmem

/-- Witness for the document cap at concrete states: with three
resumes the upload is rejected with the limit message and with an
empty resume list it is stored. -/
theorem uploadResume_document_cap_witness :
    (uploadResumeHandler emOk2 idGen0 splitOne sCap "u" (some "hello") "r4" "d.pdf").2 =
      .limitExceeded
        "Maximum 3 resumes allowed. Please delete an existing resume first." ∧
    (uploadResumeHandler emOk2 idGen0 splitOne initialState "u" (some "hello") "r1" "d.pdf").2 =
      .stored 1 := by
  constructor
  · have h := (uploadResume_document_cap emOk2 idGen0 splitOne sCap "u" "hello" "r4" "d.pdf"
      (fun _ => [2])).1 (by decide)
    exact congrArg Prod.snd h
  · obtain ⟨s', h⟩ := (uploadResume_document_cap emOk2 idGen0 splitOne initialState "u"
      "hello" "r1" "d.pdf" (fun _ => [2])).2.1 (by decide) (by decide) (fun x hx => rfl)
    exact congrArg Prod.snd h

/-- Sorting does not change the number of scored chunks. -/
lemma sortBySimilarity_length (l : List ScoredChunk) :
    (sortBySimilarity l).length = l.length :=
  (List.perm_insertionSort simOrder l).length_eq

/-- The similarities array has one entry per stored embedding. -/
lemma mkSimilarities_length (score : List ℚ → ℚ) (embeddings : List (List ℚ))
    (documents : List String) :
    (mkSimilarities score embeddings documents).length = embeddings.length := by
  simp [mkSimilarities]

/-- C5: on a nonempty collection the query operation stable-sorts all
scored chunks in descending similarity order (the sorted list is a
permutation of the scored list, is sorted by simOrder, and two entries
with equal scores keep their original relative order), returns the top
3 (text, score) pairs (the whole list when at most 3 chunks exist),
and returns as confidence the similarity of the top-ranked chunk. -/
theorem queryResume_ranking
    (embedQ : String → Except String (List ℚ)) (score : List ℚ → List ℚ → ℚ)
    (generate : String → Except String (Option String))
    (s : RAGState) (u r question : String) (history : List ChatMessage)
    (qv : List ℚ) (content : Option String)
    (hdoc : (initializeCollection s u r).1.documents.length ≠ 0)
    (hlen : (initializeCollection s u r).1.embeddings.length =
      (initializeCollection s u r).1.documents.length)
    (hq : embedQ question = .ok qv)
    (hg : ∀ p, generate p = .ok content) :
    List.Perm
      (sortBySimilarity (mkSimilarities (score qv) (initializeCollection s u r).1.embeddings
        (initializeCollection s u r).1.documents))
      (mkSimilarities (score qv) (initializeCollection s u r).1.embeddings
        (initializeCollection s u r).1.documents) ∧
    (sortBySimilarity (mkSimilarities (score qv) (initializeCollection s u r).1.embeddings
        (initializeCollection s u r).1.documents)).Sorted simOrder ∧
    (∀ a b : ScoredChunk, a.similarity = b.similarity →
      List.Sublist [a, b] (mkSimilarities (score qv) (initializeCollection s u r).1.embeddings
        (initializeCollection s u r).1.documents) →
      List.Sublist [a, b] (sortBySimilarity (mkSimilarities (score qv)
        (initializeCollection s u r).1.embeddings
        (initializeCollection s u r).1.documents))) ∧
    ((mkSimilarities (score qv) (initializeCollection s u r).1.embeddings
        (initializeCollection s u r).1.documents).length ≤ 3 →
      (sortBySimilarity (mkSimilarities (score qv)
        (initializeCollection s u r).1.embeddings
        (initializeCollection s u r).1.documents)).take 3 =
      sortBySimilarity (mkSimilarities (score qv)
        (initializeCollection s u r).1.embeddings
        (initializeCollection s u r).1.documents)) ∧
    ∃ top rest, sortBySimilarity (mkSimilarities (score qv)
        (initializeCollection s u r).1.embeddings
        (initializeCollection s u r).1.documents) = top :: rest ∧
      (queryResume embedQ score generate s u r question history).2 =
        .ok (.answered (content.getD "")
          (((top :: rest).take 3).map (fun x => (x.document, x.similarity)))
          top.similarity) := by
  refine ⟨List.perm_insertionSort simOrder _, List.sorted_insertionSort simOrder _,
    fun a b hab hsub => List.pair_sublist_insertionSort (le_of_eq hab.symm) hsub,
    fun hle => List.take_of_length_le
      (by rw [sortBySimilarity_length]; exact hle), ?_⟩
  obtain ⟨top, rest, hsort⟩ : ∃ top rest,
      sortBySimilarity (mkSimilarities (score qv)
        (initializeCollection s u r).1.embeddings
        (initializeCollection s u r).1.documents) = top :: rest := by
    rcases hcons : sortBySimilarity (mkSimilarities (score qv)
        (initializeCollection s u r).1.embeddings
        (initializeCollection s u r).1.documents) with _ | ⟨top, rest⟩
    · exfalso
      have h0 := congrArg List.length hcons
      rw [sortBySimilarity_length, mkSimilarities_length] at h0
      simp [hlen] at h0
      exact hdoc (by simp [h0])
    · exact ⟨top, rest, rfl⟩
  refine ⟨top, rest, hsort, ?_⟩
  simp only [queryResume, hq, hg]
  rw [if_neg hdoc]
  rw [hsort]
  simp

/-- Witness for the ranking contract on a concrete two-chunk
collection: chunk B scores 2, chunk A scores 1, so the result lists B
then A and reports confidence 2. -/
theorem queryResume_ranking_witness :
    (queryResume embedOkQ scoreHead genAns sQ "u" "r" "q" []).2 =
      .ok (.answered "ans" [("B", (2 : ℚ)), ("A", 1)] 2) := by
  obtain ⟨-, -, -, -, top, rest, hs, heq⟩ := queryResume_ranking embedOkQ scoreHead genAns sQ
    "u" "r" "q" [] [1] (some "ans") (by decide) (by decide) rfl (fun p => rfl)
  have hconc : sortBySimilarity (mkSimilarities (scoreHead [1])
      (initializeCollection sQ "u" "r").1.embeddings
      (initializeCollection sQ "u" "r").1.documents) =
      [⟨1, 2, "B"⟩, ⟨0, 1, "A"⟩] := by decide
  rw [hconc] at hs
  injection hs with h1 h2
  subst h1
  subst h2
  simpa using heq

/-- A freshly created empty collection is aligned. -/
lemma aligned_empty (nm : String) : (emptyCollection nm).aligned := by
  simp [Collection.aligned, emptyCollection]

/-- A collection whose four arrays were just cleared is aligned. -/
lemma aligned_cleared (c : Collection) :
    (Collection.mk c.name [] [] [] []).aligned := by
  simp [Collection.aligned]

/-- Updating one key of a map with an aligned collection (or removing
it) preserves the alignment of every stored collection. -/
lemma mapInv_upd (m : String → Option Collection)
    (P : ∀ k c, m k = some c → c.aligned) (k0 : String) (v : Option Collection)
    (hv : ∀ c, v = some c → c.aligned) :
    ∀ k c, upd m k0 v k = some c → c.aligned := by
  intro k c h
  by_cases hk : k = k0
  · subst hk
    rw [upd_apply_self] at h
    exact hv c h
  · simp only [upd, if_neg hk] at h
    exact P k c h

/-- Every iteration of the embedding loop pushes one entry onto each of
the four arrays, so alignment is preserved both on success and at the
point of an embedding failure. -/
lemma fillChunks_aligned (em : String → Except String (List ℚ)) (idGen : Nat → String) :
    ∀ (chunks : List String) (c : Collection), c.aligned →
      (∀ cP e, fillChunks em idGen chunks c.documents.length c = .error (cP, e) →
        cP.aligned) ∧
      (∀ cF, fillChunks em idGen chunks c.documents.length c = .ok cF → cF.aligned)
  | [], c, hc => by
    refine ⟨fun cP e h => by simp [fillChunks] at h, fun cF h => ?_⟩
    simp only [fillChunks] at h
    cases h
    exact hc
  | chunk :: rest, c, hc => by
    rcases hem : em chunk with e | vec
    · refine ⟨fun cP e' h => ?_, fun cF h => ?_⟩
      · simp only [fillChunks, hem] at h
        cases h
        exact hc
      · simp only [fillChunks, hem] at h
        exact Except.noConfusion h
    · have hc' : (Collection.mk c.name (c.documents ++ [chunk])
          (c.embeddings ++ [vec])
          (c.metadata ++ [⟨"resume", c.documents.length, chunk.length⟩])
          (c.ids ++ [idGen c.documents.length])).aligned := by
        obtain ⟨h1, h2, h3, h4⟩ := hc
        refine ⟨by simp [h1], by simp [h2], by simp [h3], fun i hi => ?_⟩
        simp only [List.length_append, List.length_cons, List.length_nil] at hi
        rcases Nat.lt_or_ge i c.documents.length with hlt | hge
        · rw [List.getD_append _ _ _ _ (by rw [h2]; exact hlt),
            List.getD_append _ _ _ _ hlt]
          exact h4 i hlt
        · have hi' : i = c.documents.length := by omega
          subst hi'
          rw [List.getD_append_right _ _ _ _ (by rw [h2]),
            List.getD_append_right _ _ _ _ le_rfl, h2]
          simp
      have ih := fillChunks_aligned em idGen rest _ hc'
      have hlen : (Collection.mk c.name (c.documents ++ [chunk])
          (c.embeddings ++ [vec])
          (c.metadata ++ [⟨"resume", c.documents.length, chunk.length⟩])
          (c.ids ++ [idGen c.documents.length])).documents.length =
          c.documents.length + 1 := by simp
      rw [hlen] at ih
      refine ⟨fun cP e' h => ?_, fun cF h => ?_⟩
      · simp only [fillChunks, hem] at h
        exact ih.1 cP e' h
      · simp only [fillChunks, hem] at h
        exact ih.2 cF h

/-- Loading or creating a collection preserves well-formedness and
returns an aligned collection. -/
lemma initializeCollection_wf (s : RAGState) (u r : String) (h : s.wf) :
    (initializeCollection s u r).2.wf ∧ (initializeCollection s u r).1.aligned := by
  rcases hm : s.memory (collectionName u r) with _ | c
  · rcases hd : s.disk (collectionName u r) with _ | c
    · simp only [initializeCollection, hm, hd]
      exact ⟨⟨mapInv_upd s.memory h.1 _ _
          (fun c hc => by cases hc; exact aligned_empty _), h.2⟩,
        aligned_empty _⟩
    · simp only [initializeCollection, hm, hd]
      exact ⟨⟨mapInv_upd s.memory h.1 _ _
          (fun c' hc => by cases hc; exact h.2 _ _ hd), h.2⟩,
        h.2 _ _ hd⟩
  · simp only [initializeCollection, hm]
    exact ⟨h, h.1 _ _ hm⟩

/-- processAndStoreResume preserves well-formedness in both its
outcomes: the success writes the fully rebuilt aligned collection, the
failure leaves the cleared or partially refilled collection, which is
also aligned. -/
lemma processAndStoreResume_wf (em : String → Except String (List ℚ))
    (idGen : Nat → String) (splitter : String → List String)
    (s : RAGState) (u r text fn : String) (h : s.wf) :
    (∀ s' e, processAndStoreResume em idGen splitter s u r text fn = .error (s', e) →
      s'.wf) ∧
    (∀ s' n, processAndStoreResume em idGen splitter s u r text fn = .ok (s', n) →
      s'.wf) := by
  have hinit := initializeCollection_wf s u r h
  have hfa := fillChunks_aligned em idGen (splitter text)
    (Collection.mk (initializeCollection s u r).1.name [] [] [] []) (aligned_cleared _)
  simp only [List.length_nil] at hfa
  constructor
  · intro s' e hp
    simp only [processAndStoreResume] at hp
    rcases hfc : (fillChunks em idGen (splitter text) 0
        { (initializeCollection s u r).1 with
          documents := [], embeddings := [], metadata := [], ids := [] }) with ⟨cP, eP⟩ | cF
    · rw [hfc] at hp
      cases hp
      exact ⟨mapInv_upd _ hinit.1.1 _ _
          (fun c hc => by cases hc; exact hfa.1 _ _ hfc), hinit.1.2⟩
    · rw [hfc] at hp
      exact Except.noConfusion hp
  · intro s' n hp
    simp only [processAndStoreResume] at hp
    rcases hfc : (fillChunks em idGen (splitter text) 0
        { (initializeCollection s u r).1 with
          documents := [], embeddings := [], metadata := [], ids := [] }) with ⟨cP, eP⟩ | cF
    · rw [hfc] at hp
      exact Except.noConfusion hp
    · rw [hfc] at hp
      cases hp
      refine ⟨mapInv_upd _ hinit.1.1 _ _
          (fun c hc => by cases hc; exact hfa.2 _ hfc), ?_⟩
      exact mapInv_upd _ hinit.1.2 _ _ (fun c hc => by cases hc; exact hfa.2 _ hfc)

/-- deleteResume preserves well-formedness: it only removes entries. -/
lemma deleteResume_wf (s : RAGState) (u r : String) (h : s.wf) :
    (deleteResume s u r).wf := by
  refine ⟨mapInv_upd _ h.1 _ _ (fun c hc => Option.noConfusion hc),
    mapInv_upd _ h.2 _ _ (fun c hc => Option.noConfusion hc)⟩

/-- deleteUserData preserves well-formedness: the loop only clears
entries and the final step only filters Resume records. -/
lemma deleteUserData_wf (s : RAGState) (u : String) (h : s.wf) :
    (deleteUserData s u).wf := by
  have hfold := clearFold_spec u (getUserResumes s.resumes u) s
  constructor
  · intro k c hc
    have hm := (hfold.2.2 k).1
    by_cases hmem : k ∈ (getUserResumes s.resumes u).map
        (fun r => collectionName u r.resumeId)
    · rw [show (deleteUserData s u).memory k =
          ((getUserResumes s.resumes u).foldl (clearEntry u) s).memory k from rfl,
        hm, if_pos hmem] at hc
      exact Option.noConfusion hc
    · rw [show (deleteUserData s u).memory k =
          ((getUserResumes s.resumes u).foldl (clearEntry u) s).memory k from rfl,
        hm, if_neg hmem] at hc
      exact h.1 k c hc
  · intro k c hc
    have hd := (hfold.2.2 k).2
    by_cases hmem : k ∈ (getUserResumes s.resumes u).map
        (fun r => collectionName u r.resumeId)
    · rw [show (deleteUserData s u).disk k =
          ((getUserResumes s.resumes u).foldl (clearEntry u) s).disk k from rfl,
        hd, if_pos hmem] at hc
      exact Option.noConfusion hc
    · rw [show (deleteUserData s u).disk k =
          ((getUserResumes s.resumes u).foldl (clearEntry u) s).disk k from rfl,
        hd, if_neg hmem] at hc
      exact h.2 k c hc

/-- C9: every collection reachable through the store operations (the
fresh empty state, initializeCollection, processAndStoreResume in
either outcome, and the delete operations), whether held in the
in-memory Map or in a snapshot file, keeps its four parallel sequences
aligned: equal lengths, and the metadata entry at position i carries
ordinal i and the length of the chunk text at position i. -/
theorem reachable_collections_aligned (s : RAGState) (hs : Reachable s) :
    ∀ k c, s.memory k = some c ∨ s.disk k = some c → c.aligned := by
  have key : s.wf := by
    induction hs with
    | init =>
      exact ⟨fun k c hc => Option.noConfusion hc, fun k c hc => Option.noConfusion hc⟩
    | initColl u r _ ih => exact (initializeCollection_wf _ u r ih).1
    | processOk em idGen splitter u r text fn _ heq ih =>
      exact (processAndStoreResume_wf em idGen splitter _ u r text fn ih).2 _ _ heq
    | processErr em idGen splitter u r text fn _ heq ih =>
      exact (processAndStoreResume_wf em idGen splitter _ u r text fn ih).1 _ _ heq
    | delResume u r _ ih => exact deleteResume_wf _ u r ih
    | delUser u _ ih => exact deleteUserData_wf _ u ih
    | delChats u r _ ih => exact ih
  intro k c hc
  rcases hc with hc | hc
  · exact key.1 k c hc
  · exact key.2 k c hc

/-- Witness for the alignment invariant: the empty collection created
for a fresh key in the initial state is reachable and aligned. -/
theorem reachable_collections_aligned_witness :
    (emptyCollection (collectionName "u" "r")).aligned := by
  have h := reachable_collections_aligned
    (initializeCollection initialState "u" "r").2
    (Reachable.initColl "u" "r" Reachable.init)
    (collectionName "u" "r") (emptyCollection (collectionName "u" "r"))
  exact h (Or.inl (by simp [initializeCollection, initialState, upd_apply_self]))

/-- A sum of squares is nonnegative. -/
lemma sumSquares_nonneg (a : List ℝ) : 0 ≤ sumSquares a := by
  apply List.sum_nonneg
  intro x hx
  simp only [List.mem_map] at hx
  obtain ⟨y, -, rfl⟩ := hx
  exact mul_self_nonneg y

/-- Cauchy-Schwarz for the truncating list dot product, squared form. -/
lemma dotProduct_sq_le : ∀ a b : List ℝ,
    dotProduct a b * dotProduct a b ≤ sumSquares a * sumSquares b
  | [], b => by simp [dotProduct, sumSquares]
  | x :: a, [] => by simp [dotProduct, sumSquares]
  | x :: a, y :: b => by
    have ih := dotProduct_sq_le a b
    have hA := sumSquares_nonneg a
    have hB := sumSquares_nonneg b
    have hgoal : (x * y + dotProduct a b) * (x * y + dotProduct a b) ≤
        (x * x + sumSquares a) * (y * y + sumSquares b) := by
      rcases eq_or_lt_of_le hB with hB0 | hBpos
      · have hd2 : dotProduct a b * dotProduct a b ≤ 0 := by nlinarith [ih]
        have hd0 : dotProduct a b = 0 :=
          mul_self_eq_zero.mp (le_antisymm hd2 (mul_self_nonneg _))
        rw [hd0, ← hB0]
        nlinarith [mul_nonneg hA (mul_self_nonneg y)]
      · nlinarith [sq_nonneg (x * sumSquares b - y * dotProduct a b),
          mul_nonneg (add_nonneg (mul_self_nonneg y) hB)
            (by nlinarith [ih] : (0 : ℝ) ≤
              sumSquares a * sumSquares b - dotProduct a b * dotProduct a b),
          hBpos]
    simpa [dotProduct, sumSquares] using hgoal

/-- Cauchy-Schwarz with magnitudes: the absolute dot product is at most
the product of the magnitudes. -/
lemma abs_dotProduct_le (a b : List ℝ) :
    |dotProduct a b| ≤ magnitude a * magnitude b := by
  have h := dotProduct_sq_le a b
  have hA := sumSquares_nonneg a
  calc |dotProduct a b|
      = Real.sqrt (dotProduct a b * dotProduct a b) :=
        (Real.sqrt_mul_self_eq_abs _).symm
    _ ≤ Real.sqrt (sumSquares a * sumSquares b) := Real.sqrt_le_sqrt h
    _ = magnitude a * magnitude b := by
        rw [magnitude, magnitude, ← Real.sqrt_mul hA]

/-- C3 as stated is violated: the division in cosineSimilarity is not
guarded, so a zero-magnitude vector does not give 0; the JS code
divides by zero (NaN), modelled as none. -/
theorem cosineSimilarity_zero_vector_not_zero :
    cosineSimilarity [(0 : ℝ)] [1] = none ∧ (none : Option ℝ) ≠ some 0 := by
  constructor
  · have hmag : magnitude [(0 : ℝ)] = 0 := by
      simp [magnitude, sumSquares]
    simp [cosineSimilarity, jsDiv, hmag]
  · simp

/-- C3 amended: for vectors of equal length, when both magnitudes are
nonzero the code returns the dot product divided by the product of the
magnitudes, and that value always lies in the interval from -1 to 1;
when either magnitude is zero the division is unguarded and the result
is NaN (modelled none), not 0. -/
theorem cosineSimilarity_amended (a b : List ℝ) (_hlen : a.length = b.length) :
    (magnitude a ≠ 0 → magnitude b ≠ 0 →
      cosineSimilarity a b = some (dotProduct a b / (magnitude a * magnitude b)) ∧
      ∀ x, cosineSimilarity a b = some x → -1 ≤ x ∧ x ≤ 1) ∧
    (magnitude a = 0 ∨ magnitude b = 0 → cosineSimilarity a b = none) := by
  constructor
  · intro ha hb
    have hd : magnitude a * magnitude b ≠ 0 := mul_ne_zero ha hb
    have heq : cosineSimilarity a b =
        some (dotProduct a b / (magnitude a * magnitude b)) := by
      simp [cosineSimilarity, jsDiv, hd]
    refine ⟨heq, fun x hx => ?_⟩
    rw [heq] at hx
    have hxeq : x = dotProduct a b / (magnitude a * magnitude b) :=
      (Option.some.inj hx).symm
    subst hxeq
    have hpos : 0 < magnitude a * magnitude b :=
      lt_of_le_of_ne (mul_nonneg (Real.sqrt_nonneg _) (Real.sqrt_nonneg _)) (Ne.symm hd)
    have habs : |dotProduct a b / (magnitude a * magnitude b)| ≤ 1 := by
      rw [abs_div, abs_of_pos hpos]
      exact div_le_one_of_le₀ (abs_dotProduct_le a b) hpos.le
    exact abs_le.mp habs
  · intro h
    have h0 : magnitude a * magnitude b = 0 := by
      rcases h with h | h <;> simp [h]
    simp [cosineSimilarity, jsDiv, h0]

/-- Witness for the amended cosine similarity at the one-dimensional
vectors [1] and [1]: both magnitudes are 1, the result is 1 and it
lies in the interval. -/
theorem cosineSimilarity_amended_witness :
    cosineSimilarity [(1 : ℝ)] [1] = some 1 ∧ (-1 : ℝ) ≤ 1 ∧ (1 : ℝ) ≤ 1 := by
  have hmag : magnitude [(1 : ℝ)] = 1 := by
    simp [magnitude, sumSquares]
  have h := (cosineSimilarity_amended [(1 : ℝ)] [1] rfl).1
    (by rw [hmag]; norm_num) (by rw [hmag]; norm_num)
  have heq := h.1
  have hdot : dotProduct [(1 : ℝ)] [1] = 1 := by simp [dotProduct]
  rw [hmag, hdot] at heq
  norm_num at heq
  exact ⟨heq, h.2 1 (by rw [heq])⟩
